import Mathlib

/-!
Verification of the multi-step form component in src/components/form.tsx.

The component keeps four pieces of state (previousStep, currentStep,
isSubmitted, formData) plus the react-hook-form values and errors, and
exposes three user actions: the Next button (the function named next in the
source), the Previous button (prev), and the Submit button on the review
step, whose handler is handleSubmit(processForm). We embed the component as
a pure transition system on an explicit state record.

Field values are modelled JavaScript-style: a value is either undefined, a
string, or a boolean. The react-hook-form values store is a total function
from fields to such values (undefined standing for a field never set), and
the accumulated formData is an optional-valued map, with none meaning the key is
absent from the object.
-/

namespace MultiStepForm

/-- The ten field names of FormDataSchema (form.tsx lines 9-20). -/
inductive Field where
  | firstName | lastName | email | country | state | city | street | zip
  | joinNewsletter | enableNotification
deriving DecidableEq, Repr

/-- A JavaScript field value: undefined, a string, or a boolean. -/
inductive Value where
  | undefined : Value
  | str : String → Value
  | bool : Bool → Value
deriving DecidableEq, Repr

/-- All fields of the schema, in declaration order. -/
def allFieldsList : List Field :=
  [.firstName, .lastName, .email, .country, .state, .city, .street, .zip,
   .joinNewsletter, .enableNotification]

/-- Split a character list at every occurrence of a separator character,
structural-recursion analogue of splitting a string. -/
def splitOnChar (c : Char) : List Char → List (List Char)
  | [] => [[]]
  | x :: xs =>
    match splitOnChar c xs with
    | [] => [[]]
    | g :: gs => if x = c then [] :: g :: gs else (x :: g) :: gs

/-- Modelled from the spec: the Validator checks an email-shaped string.
The source delegates to the external zod library (z.string().email), which
is not part of this repository; following the spec wording, a string is
email-shaped when it has exactly one at-sign, a nonempty local part, and a
domain of at least two nonempty dot-separated labels. -/
def emailShaped (s : String) : Bool :=
  match splitOnChar '@' s.data with
  | [lp, dom] =>
    !lp.isEmpty && !dom.isEmpty &&
      decide (2 ≤ (splitOnChar '.' dom).length) &&
      (splitOnChar '.' dom).all (fun p => !p.isEmpty)
  | _ => false

/-- Validation of a required string field, z.string().min(1, msg): a string
shorter than one character yields msg; a missing or non-string value yields
the zod type error. -/
def reqString (v : Value) (msg : String) : Option String :=
  match v with
  | .str s => if s.length < 1 then some msg else none
  | .undefined => some "Required"
  | .bool _ => some "Expected string, received boolean"

/-- Validation of an optional boolean field, z.boolean().optional():
missing and boolean values pass, a string value fails. -/
def optBool (v : Value) : Option String :=
  match v with
  | .undefined => none
  | .bool _ => none
  | .str _ => some "Expected boolean, received string"

/-- Per-field validation against FormDataSchema (form.tsx lines 9-20),
reading the current value of the field from the values store: none means
the field passes, some msg is the reported error message. -/
def validateField (inputs : Field → Value) (f : Field) : Option String :=
  match f with
  | .firstName => reqString (inputs .firstName) "First name is required"
  | .lastName => reqString (inputs .lastName) "Last name is required"
  | .email =>
    match inputs .email with
    | .str s => if emailShaped s then none else some "Invalid email address"
    | .undefined => some "Required"
    | .bool _ => some "Expected string, received boolean"
  | .country => reqString (inputs .country) "Country is required"
  | .state => reqString (inputs .state) "State is required"
  | .city => reqString (inputs .city) "City is required"
  | .street => reqString (inputs .street) "Street is required"
  | .zip => reqString (inputs .zip) "ZIP code is required"
  | .joinNewsletter => optBool (inputs .joinNewsletter)
  | .enableNotification => optBool (inputs .enableNotification)

/-- Whether the schema requires the field (every field except the two
optional booleans). -/
def requiredField : Field → Bool
  | .joinNewsletter => false
  | .enableNotification => false
  | _ => true

/-- Validate a list of fields, collecting one error entry per failing
field, as trigger and the zod resolver do. -/
def validateFields (inputs : Field → Value) (fields : List Field) :
    List (Field × String) :=
  fields.filterMap (fun f => (validateField inputs f).map (fun m => (f, m)))

/-- The field lists of the steps array (form.tsx lines 24-41), with the
default empty list that saveStepData applies for the review step, which
has no fields entry. -/
def stepFields : Nat → List Field
  | 0 => [.firstName, .lastName, .email]
  | 1 => [.country, .state, .city, .street, .zip]
  | 2 => [.joinNewsletter, .enableNotification]
  | _ => []

/-- The fields that the trigger call in next validates. For indices 0-2 it
is the active step field list; on the review step the source reads a
missing fields entry, so trigger receives undefined and validates the
whole schema. Indices above 3 never occur in a run from the initial
state. -/
def triggerFields (i : Nat) : List Field :=
  if i < 3 then stepFields i else allFieldsList

/-- The component state: the two step indices, the submitted flag, the
accumulated formData object (none meaning the key is absent), and the
react-hook-form error map as an association list. -/
structure FormState where
  previousStep : Nat
  currentStep : Nat
  isSubmitted : Bool
  formData : Field → Option Value
  errors : List (Field × String)

/-- Initial component state (form.tsx lines 44-48): both indices 0, not
submitted, empty formData, no errors. -/
def initialState : FormState :=
  { previousStep := 0, currentStep := 0, isSubmitted := false,
    formData := fun _ => none, errors := [] }

/-- Replace the error entries of the validated fields with the fresh
validation outcome, leaving errors of other fields in place, as a
react-hook-form validation pass over those fields does. -/
def refreshErrors (old : List (Field × String)) (fields : List Field)
    (fresh : List (Field × String)) : List (Field × String) :=
  old.filter (fun p => decide (p.1 ∉ fields)) ++ fresh

/-- Effect of a trigger call on the state: validates the given fields and
updates their error entries; nothing else changes. -/
def applyTrigger (inputs : Field → Value) (fields : List Field)
    (s : FormState) : FormState :=
  { s with errors := refreshErrors s.errors fields (validateFields inputs fields) }

/-- saveStepData (form.tsx lines 62-75): reduce the active step field list
to the object of its currently defined values, skipping fields whose value
is undefined, and spread it over the previous formData. -/
def saveStepData (inputs : Field → Value) (s : FormState) : FormState :=
  { s with formData := fun f =>
      if f ∈ stepFields s.currentStep ∧ inputs f ≠ Value.undefined
      then some (inputs f) else s.formData f }

/-- handleSubmit(processForm) (form.tsx lines 78-81, 95, 171): validate
the full schema, updating every error entry; when everything passes, the
processForm callback runs and sets the submitted flag. -/
def handleSubmitProcess (inputs : Field → Value) (s : FormState) : FormState :=
  let s0 := applyTrigger inputs allFieldsList s
  if (validateFields inputs allFieldsList).isEmpty then
    { s0 with isSubmitted := true }
  else s0

/-- Move both indices forward: previousStep takes the old currentStep and
currentStep is incremented (form.tsx lines 97-98). -/
def advanceIndex (s : FormState) : FormState :=
  { s with previousStep := s.currentStep, currentStep := s.currentStep + 1 }

/-- next (form.tsx lines 85-100): trigger the active step fields; on
failure return with only errors updated; on success save the step data,
and when below the last index (steps.length - 1 = 3) advance, running
handleSubmit(processForm) first when on the second-to-last step
(steps.length - 2 = 2). -/
def next (inputs : Field → Value) (s : FormState) : FormState :=
  let fields := triggerFields s.currentStep
  let s0 := applyTrigger inputs fields s
  if (validateFields inputs fields).isEmpty then
    let s1 := saveStepData inputs s0
    if s1.currentStep < 3 then
      advanceIndex (if s1.currentStep = 2 then handleSubmitProcess inputs s1 else s1)
    else s1
  else s0

/-- prev (form.tsx lines 102-107): decrement the index when positive,
otherwise do nothing; no validation, no data change. -/
def prev (s : FormState) : FormState :=
  if 0 < s.currentStep then
    { s with previousStep := s.currentStep, currentStep := s.currentStep - 1 }
  else s

/-- formatValue (form.tsx lines 108-113): booleans render as Yes or No;
any falsy value, including undefined and the empty string, renders as Not
provided. -/
def formatValue : Value → String
  | .bool true => "Yes"
  | .bool false => "No"
  | .str s => if s.length = 0 then "Not provided" else s
  | .undefined => "Not provided"

/-- JavaScript property read on the formData object: a missing key reads
as undefined. -/
def jsGet (fd : Field → Option Value) (f : Field) : Value :=
  match fd f with
  | some v => v
  | none => Value.undefined

/-- Object.keys of the formData object: the fields that are present. -/
def objectKeys (fd : Field → Option Value) : List Field :=
  allFieldsList.filter (fun f => (fd f).isSome)

/-- setValue of react-hook-form on the values store: point update. -/
def setValue (vals : Field → Value) (f : Field) (v : Value) : Field → Value :=
  fun g => if g = f then v else vals g

/-- loadStepData (form.tsx lines 125-132): for every key present in
formData, write its recorded value into the values store. Note the loop
ranges over all keys of formData, not over the active step fields. -/
def loadStepData (fd : Field → Option Value) (vals : Field → Value) :
    Field → Value :=
  (objectKeys fd).foldl (fun acc f => setValue acc f (jsGet fd f)) vals

/-- A user action: clicking Next (with the values store at that moment),
clicking Previous, or submitting the review form. -/
inductive Op where
  | next (inputs : Field → Value) : Op
  | prev : Op
  | submit (inputs : Field → Value) : Op

/-- One transition of the component. -/
def step (s : FormState) : Op → FormState
  | .next inputs => next inputs s
  | .prev => prev s
  | .submit inputs => handleSubmitProcess inputs s

/-- Run a list of actions from a state. -/
def run : FormState → List Op → FormState
  | s, [] => s
  | s, op :: ops => run (step s op) ops

/-- Which actions the rendered page lets the user take (form.tsx lines
458-495): Next is hidden on the last step, Previous is disabled on step 0,
and the Submit button exists only on the review step before submission. -/
def enabledB (s : FormState) : Op → Bool
  | .next _ => s.currentStep != 3
  | .prev => s.currentStep != 0
  | .submit _ => s.currentStep == 3 && !s.isSubmitted

/-- Every action of the list is enabled at the state where it fires. -/
def enabledRunB : FormState → List Op → Bool
  | _, [] => true
  | s, op :: ops => enabledB s op && enabledRunB (step s op) ops

/-- The whole schema validates on the given values store. -/
def fullValid (inputs : Field → Value) : Bool :=
  (validateFields inputs allFieldsList).isEmpty

/-- The action carries valid data where it matters: a Next click fired on
step 2 carries a values store on which the full schema passes. -/
def validOp (s : FormState) : Op → Bool
  | .next inputs => s.currentStep != 2 || fullValid inputs
  | _ => true

/-- validOp holds at every point of the run. -/
def validRunB : FormState → List Op → Bool
  | _, [] => true
  | s, op :: ops => validOp s op && validRunB (step s op) ops

/-- Number of transitions of the run at which the submitted flag flips
from false to true. -/
def flips : FormState → List Op → Nat
  | _, [] => 0
  | s, op :: ops =>
    (if s.isSubmitted = false ∧ (step s op).isSubmitted = true then 1 else 0)
      + flips (step s op) ops

/-- Full-schema validations performed during one call of next: the
trigger call itself is one exactly on the review step (where the fields
argument is undefined), and handleSubmit performs one when the guarded
branch for the second-to-last step is reached. -/
def nextFullChecks (inputs : Field → Value) (s : FormState) : Nat :=
  (if 3 ≤ s.currentStep then 1 else 0) +
    (if (validateFields inputs (triggerFields s.currentStep)).isEmpty then
      (if s.currentStep < 3 then (if s.currentStep = 2 then 1 else 0) else 0)
     else 0)

/-- A values store on which every field of the schema validates. -/
def goodInputs : Field → Value
  | .firstName => .str "John"
  | .lastName => .str "Doe"
  | .email => .str "jd@mail.co"
  | .country => .str "US"
  | .state => .str "CA"
  | .city => .str "LA"
  | .street => .str "Main"
  | .zip => .str "90001"
  | .joinNewsletter => .bool true
  | .enableNotification => .undefined

/-- Step 0 values with an empty first name, matching the first spec
example. -/
def inputsEmptyFirstName : Field → Value
  | .firstName => .str ""
  | .lastName => .str "Doe"
  | .email => .str "jd@mail.co"
  | _ => .undefined

/-- Step 0 values with the invalid email bad, matching the second spec
example. -/
def inputsBadEmail : Field → Value
  | .firstName => .str "John"
  | .lastName => .str "Doe"
  | .email => .str "bad"
  | _ => .undefined

example : fullValid goodInputs = true := by decide
example : emailShaped "bad" = false := by decide
example : (next goodInputs initialState).currentStep = 1 := by decide

/-! Projection lemmas for the building blocks of the transitions. -/

@[simp] lemma applyTrigger_currentStep (inputs : Field → Value)
    (fields : List Field) (s : FormState) :
    (applyTrigger inputs fields s).currentStep = s.currentStep := rfl

@[simp] lemma applyTrigger_formData (inputs : Field → Value)
    (fields : List Field) (s : FormState) :
    (applyTrigger inputs fields s).formData = s.formData := rfl

@[simp] lemma applyTrigger_isSubmitted (inputs : Field → Value)
    (fields : List Field) (s : FormState) :
    (applyTrigger inputs fields s).isSubmitted = s.isSubmitted := rfl

@[simp] lemma saveStepData_currentStep (inputs : Field → Value) (s : FormState) :
    (saveStepData inputs s).currentStep = s.currentStep := rfl

@[simp] lemma saveStepData_isSubmitted (inputs : Field → Value) (s : FormState) :
    (saveStepData inputs s).isSubmitted = s.isSubmitted := rfl

@[simp] lemma saveStepData_errors (inputs : Field → Value) (s : FormState) :
    (saveStepData inputs s).errors = s.errors := rfl

lemma saveStepData_formData (inputs : Field → Value) (s : FormState) (f : Field) :
    (saveStepData inputs s).formData f =
      if f ∈ stepFields s.currentStep ∧ inputs f ≠ Value.undefined
      then some (inputs f) else s.formData f := rfl

@[simp] lemma advanceIndex_currentStep (s : FormState) :
    (advanceIndex s).currentStep = s.currentStep + 1 := rfl

@[simp] lemma advanceIndex_isSubmitted (s : FormState) :
    (advanceIndex s).isSubmitted = s.isSubmitted := rfl

@[simp] lemma advanceIndex_formData (s : FormState) :
    (advanceIndex s).formData = s.formData := rfl

lemma handleSubmitProcess_currentStep (inputs : Field → Value) (s : FormState) :
    (handleSubmitProcess inputs s).currentStep = s.currentStep := by
  unfold handleSubmitProcess
  split <;> rfl

lemma handleSubmitProcess_formData (inputs : Field → Value) (s : FormState) :
    (handleSubmitProcess inputs s).formData = s.formData := by
  unfold handleSubmitProcess
  split <;> rfl

lemma handleSubmitProcess_isSubmitted (inputs : Field → Value) (s : FormState) :
    (handleSubmitProcess inputs s).isSubmitted =
      (fullValid inputs || s.isSubmitted) := by
  unfold handleSubmitProcess fullValid
  split <;> simp_all

lemma prev_formData (s : FormState) : (prev s).formData = s.formData := by
  unfold prev
  split <;> rfl

lemma prev_errors (s : FormState) : (prev s).errors = s.errors := by
  unfold prev
  split <;> rfl

lemma prev_isSubmitted (s : FormState) : (prev s).isSubmitted = s.isSubmitted := by
  unfold prev
  split <;> rfl

lemma prev_currentStep (s : FormState) :
    (prev s).currentStep =
      if 0 < s.currentStep then s.currentStep - 1 else s.currentStep := by
  unfold prev
  split <;> simp_all

/-! Characterizations of next on each state component. -/

lemma next_currentStep (inputs : Field → Value) (s : FormState) :
    (next inputs s).currentStep =
      if (validateFields inputs (triggerFields s.currentStep)).isEmpty
          ∧ s.currentStep < 3
      then s.currentStep + 1 else s.currentStep := by
  obtain ⟨p, c, b, fd, er⟩ := s
  by_cases h : validateFields inputs (triggerFields c) = []
  · by_cases h3 : c < 3
    · simp [next, h, h3, apply_ite FormState.currentStep,
        handleSubmitProcess_currentStep]
    · simp [next, h, h3]
  · simp [next, h]

lemma next_isSubmitted (inputs : Field → Value) (s : FormState) :
    (next inputs s).isSubmitted =
      if (validateFields inputs (triggerFields s.currentStep)).isEmpty
          ∧ s.currentStep = 2
      then (fullValid inputs || s.isSubmitted) else s.isSubmitted := by
  obtain ⟨p, c, b, fd, er⟩ := s
  by_cases h2 : c = 2
  · subst h2
    by_cases h : validateFields inputs (triggerFields 2) = []
    · simp [next, h, handleSubmitProcess_isSubmitted]
    · simp [next, h]
  · by_cases h : validateFields inputs (triggerFields c) = []
    · by_cases h3 : c < 3
      · simp [next, h, h2, h3]
      · simp [next, h, h2, h3]
    · simp [next, h, h2]

lemma next_formData_of_fail (inputs : Field → Value) (s : FormState)
    (h : (validateFields inputs (triggerFields s.currentStep)).isEmpty = false) :
    (next inputs s).formData = s.formData := by
  unfold next
  simp [h]

lemma next_formData_of_ok (inputs : Field → Value) (s : FormState)
    (h : (validateFields inputs (triggerFields s.currentStep)).isEmpty = true)
    (f : Field) :
    (next inputs s).formData f =
      (if f ∈ stepFields s.currentStep ∧ inputs f ≠ Value.undefined
       then some (inputs f) else s.formData f) := by
  obtain ⟨p, c, b, fd, er⟩ := s
  rw [List.isEmpty_iff] at h
  by_cases h2 : c = 2
  · subst h2
    simp [next, h, handleSubmitProcess_formData, saveStepData, applyTrigger]
  · by_cases h3 : c < 3
    · simp [next, h, h2, h3, saveStepData, applyTrigger]
    · simp [next, h, h2, h3, saveStepData, applyTrigger]

lemma next_errors_of_fail (inputs : Field → Value) (s : FormState)
    (h : (validateFields inputs (triggerFields s.currentStep)).isEmpty = false) :
    (next inputs s).errors =
      refreshErrors s.errors (triggerFields s.currentStep)
        (validateFields inputs (triggerFields s.currentStep)) := by
  unfold next
  simp [h, applyTrigger]

/-! Facts about validation of field lists. -/

lemma validateFields_eq_nil_iff (inputs : Field → Value) (fields : List Field) :
    validateFields inputs fields = [] ↔
      ∀ f ∈ fields, validateField inputs f = none := by
  simp [validateFields, List.filterMap_eq_nil_iff]

lemma mem_validateFields (inputs : Field → Value) (fields : List Field)
    (f : Field) (msg : String) :
    (f, msg) ∈ validateFields inputs fields ↔
      f ∈ fields ∧ validateField inputs f = some msg := by
  simp only [validateFields, List.mem_filterMap, Option.map_eq_some']
  constructor
  · rintro ⟨a, ha, m, hm, heq⟩
    injection heq with h1 h2
    subst h1; subst h2
    exact ⟨ha, hm⟩
  · rintro ⟨ha, hm⟩
    exact ⟨f, ha, msg, hm, rfl⟩

lemma stepFields_of_ge (c : Nat) (h : 3 ≤ c) : stepFields c = [] := by
  match c, h with
  | (n + 3), _ => rfl

lemma mem_stepFields_lt (c : Nat) (f : Field) (h : f ∈ stepFields c) : c < 3 := by
  by_contra hge
  rw [stepFields_of_ge c (by omega)] at h
  simp at h

lemma triggerFields_of_lt (c : Nat) (h : c < 3) : triggerFields c = stepFields c := by
  simp [triggerFields, h]

/-- C1: for every step whose fields all validate against the schema, a call
of next increments the step index by one, except on the last step where it
is unchanged, and merges exactly the active step fields (those with a
defined value) into the accumulated formData, leaving all other keys as
they were. -/
theorem C1_advance_valid_step (s : FormState) (inputs : Field → Value)
    (hvalid : ∀ f ∈ stepFields s.currentStep, validateField inputs f = none) :
    (next inputs s).currentStep =
      (if s.currentStep < 3 then s.currentStep + 1 else s.currentStep) ∧
    ∀ f : Field, (next inputs s).formData f =
      (if f ∈ stepFields s.currentStep ∧ inputs f ≠ Value.undefined
       then some (inputs f) else s.formData f) := by
  by_cases hok : (validateFields inputs (triggerFields s.currentStep)).isEmpty = true
  · refine ⟨?_, fun f => next_formData_of_ok inputs s hok f⟩
    rw [next_currentStep]
    by_cases h3 : s.currentStep < 3 <;> simp [hok, h3]
  · have h3 : ¬ s.currentStep < 3 := by
      intro hlt
      apply hok
      rw [List.isEmpty_iff, triggerFields_of_lt _ hlt,
        validateFields_eq_nil_iff]
      exact hvalid
    have hfail : (validateFields inputs (triggerFields s.currentStep)).isEmpty = false := by
      simpa using hok
    have hempty : stepFields s.currentStep = [] := stepFields_of_ge _ (by omega)
    refine ⟨?_, ?_⟩
    · rw [next_currentStep]
      simp [h3]
    · intro f
      rw [next_formData_of_fail inputs s hfail]
      simp [hempty]

/-- C1 witness at the initial state with fully valid inputs. -/
theorem C1_advance_valid_step_witness :
    (next goodInputs initialState).currentStep = 1 ∧
    (next goodInputs initialState).formData Field.firstName =
      some (Value.str "John") := by
  have h := C1_advance_valid_step initialState goodInputs (by decide)
  refine ⟨?_, ?_⟩
  · rw [h.1]; decide
  · rw [h.2 Field.firstName]; decide

/-- C2: when some required field of the active step is empty or invalid, a
call of next leaves the step index and the accumulated formData unchanged
and surfaces a non-empty error set containing an entry for that field. -/
theorem C2_advance_invalid_field (s : FormState) (inputs : Field → Value)
    (f : Field) (msg : String)
    (hmem : f ∈ stepFields s.currentStep)
    (_hreq : requiredField f = true)
    (herr : validateField inputs f = some msg) :
    (next inputs s).currentStep = s.currentStep ∧
    (next inputs s).formData = s.formData ∧
    (next inputs s).errors ≠ [] ∧
    (f, msg) ∈ (next inputs s).errors := by
  have hlt : s.currentStep < 3 := mem_stepFields_lt _ _ hmem
  have htf : triggerFields s.currentStep = stepFields s.currentStep :=
    triggerFields_of_lt _ hlt
  have hfreshmem : (f, msg) ∈ validateFields inputs (triggerFields s.currentStep) := by
    rw [htf, mem_validateFields]
    exact ⟨hmem, herr⟩
  have hne : validateFields inputs (triggerFields s.currentStep) ≠ [] :=
    List.ne_nil_of_mem hfreshmem
  have hfail : (validateFields inputs (triggerFields s.currentStep)).isEmpty = false := by
    rw [List.isEmpty_eq_false]
    exact hne
  have herrs := next_errors_of_fail inputs s hfail
  refine ⟨?_, next_formData_of_fail inputs s hfail, ?_, ?_⟩
  · rw [next_currentStep]
    simp [List.isEmpty_eq_false.mpr hne]
  · rw [herrs]
    intro hnil
    rcases List.append_eq_nil.mp hnil with ⟨-, h2⟩
    exact hne h2
  · rw [herrs]
    exact List.mem_append_right _ hfreshmem

/-- C2 witness: empty first name at the initial state. -/
theorem C2_advance_invalid_field_witness :
    (next inputsEmptyFirstName initialState).currentStep =
      initialState.currentStep ∧
    (next inputsEmptyFirstName initialState).formData = initialState.formData ∧
    (next inputsEmptyFirstName initialState).errors ≠ [] ∧
    (Field.firstName, "First name is required") ∈
      (next inputsEmptyFirstName initialState).errors :=
  C2_advance_invalid_field initialState inputsEmptyFirstName Field.firstName
    "First name is required" (by decide) (by decide) (by decide)

/-- C6: prev decrements a positive step index by one and leaves a zero
index unchanged; it performs no validation and leaves the accumulated
formData, the error map and the submitted flag untouched. -/
theorem C6_retreat_frame (s : FormState) :
    (prev s).formData = s.formData ∧
    (prev s).errors = s.errors ∧
    (prev s).isSubmitted = s.isSubmitted ∧
    (prev s).currentStep =
      (if 0 < s.currentStep then s.currentStep - 1 else s.currentStep) :=
  ⟨prev_formData s, prev_errors s, prev_isSubmitted s, prev_currentStep s⟩

/-- C9: the two concrete error examples of the spec, evaluated at the
initial state: an empty first name blocks the step and reports the message
First name is required; the email value bad reports Invalid email
address. -/
theorem C9_error_message_examples :
    (next inputsEmptyFirstName initialState).currentStep = 0 ∧
    (Field.firstName, "First name is required") ∈
      (next inputsEmptyFirstName initialState).errors ∧
    (next inputsBadEmail initialState).currentStep = 0 ∧
    (Field.email, "Invalid email address") ∈
      (next inputsBadEmail initialState).errors := by
  decide

/-! Transition lemmas used by the trace-level claims. -/

@[simp] lemma step_next (s : FormState) (inputs : Field → Value) :
    step s (Op.next inputs) = next inputs s := rfl

@[simp] lemma step_prev (s : FormState) : step s Op.prev = prev s := rfl

@[simp] lemma step_submit (s : FormState) (inputs : Field → Value) :
    step s (Op.submit inputs) = handleSubmitProcess inputs s := rfl

lemma next_formData_not_mem (inputs : Field → Value) (s : FormState)
    (f : Field) (hf : f ∉ stepFields s.currentStep) :
    (next inputs s).formData f = s.formData f := by
  by_cases hok : (validateFields inputs (triggerFields s.currentStep)).isEmpty = true
  · rw [next_formData_of_ok inputs s hok f]
    simp [hf]
  · rw [next_formData_of_fail inputs s (by simpa using hok)]

lemma step_formData_isSome (s : FormState) (op : Op) (f : Field)
    (h : (s.formData f).isSome = true) :
    ((step s op).formData f).isSome = true := by
  cases op with
  | next inputs =>
    rw [step_next]
    by_cases hok : (validateFields inputs (triggerFields s.currentStep)).isEmpty = true
    · rw [next_formData_of_ok inputs s hok f]
      split
      · simp
      · exact h
    · rw [next_formData_of_fail inputs s (by simpa using hok)]
      exact h
  | prev =>
    rw [step_prev, prev_formData]
    exact h
  | submit inputs =>
    rw [step_submit, handleSubmitProcess_formData]
    exact h

lemma run_formData_isSome (s : FormState) (ops : List Op) (f : Field)
    (h : (s.formData f).isSome = true) :
    ((run s ops).formData f).isSome = true := by
  induction ops generalizing s with
  | nil => exact h
  | cons op ops ih => exact ih (step s op) (step_formData_isSome s op f h)

lemma stepFields_zero_disjoint (c : Nat) (hc : c ≠ 0) (f : Field)
    (hf : f ∈ stepFields 0) : f ∉ stepFields c := by
  match c, hc with
  | 1, _ => cases f <;> simp_all [stepFields]
  | 2, _ => cases f <;> simp_all [stepFields]
  | (n + 3), _ =>
    rw [stepFields_of_ge (n + 3) (by omega)]
    simp

/-- C3: the key set of the accumulated formData is monotone along every
run of actions: once a key holds a value, every later state still holds a
value for it; moreover a next fired away from step 0 leaves every step 0
field entry exactly unchanged, and prev never changes formData at all. -/
theorem C3_formData_monotone :
    (∀ (s : FormState) (ops : List Op) (f : Field),
        (s.formData f).isSome = true →
        ((run s ops).formData f).isSome = true) ∧
    (∀ (s : FormState) (inputs : Field → Value) (f : Field),
        f ∈ stepFields 0 → s.currentStep ≠ 0 →
        (next inputs s).formData f = s.formData f) ∧
    (∀ (s : FormState) (f : Field), (prev s).formData f = s.formData f) ∧
    (∀ (s : FormState) (i1 i2 : Field → Value) (f : Field),
        f ∈ stepFields 0 → s.currentStep = 1 →
        (run s [Op.next i1, Op.next i2]).formData f = s.formData f) := by
  refine ⟨run_formData_isSome, ?_, fun s f => by rw [prev_formData], ?_⟩
  · intro s inputs f hf hc
    exact next_formData_not_mem inputs s f (stepFields_zero_disjoint _ hc f hf)
  · intro s i1 i2 f hf h1
    have e1 : (next i1 s).formData f = s.formData f :=
      next_formData_not_mem i1 s f
        (stepFields_zero_disjoint _ (by omega) f hf)
    have hc : (next i1 s).currentStep ≠ 0 := by
      rw [next_currentStep]
      split <;> omega
    show (next i2 (next i1 s)).formData f = s.formData f
    rw [next_formData_not_mem i2 _ f (stepFields_zero_disjoint _ hc f hf), e1]

/-- A state with a recorded first name, sitting on step 1. -/
def recordedState : FormState :=
  { previousStep := 0, currentStep := 1, isSubmitted := false,
    formData := fun f => if f = Field.firstName then some (Value.str "J") else none,
    errors := [] }

/-- C3 witness: the recorded first name survives a retreat and a next
fired on step 1. -/
theorem C3_formData_monotone_witness :
    ((run recordedState [Op.prev]).formData Field.firstName).isSome = true ∧
    (next goodInputs recordedState).formData Field.firstName =
      recordedState.formData Field.firstName :=
  ⟨C3_formData_monotone.1 recordedState [Op.prev] Field.firstName (by decide),
   C3_formData_monotone.2.1 recordedState goodInputs Field.firstName
     (by decide) (by decide)⟩

lemma step_currentStep_le (s : FormState) (op : Op)
    (h : s.currentStep ≤ 3) : (step s op).currentStep ≤ 3 := by
  cases op with
  | next inputs =>
    rw [step_next, next_currentStep]
    split <;> omega
  | prev =>
    rw [step_prev, prev_currentStep]
    split <;> omega
  | submit inputs =>
    rw [step_submit, handleSubmitProcess_currentStep]
    exact h

/-- C8: in every state reachable from the initial state by any sequence of
actions, the current step index lies between 0 and stepCount - 1 = 3. -/
theorem C8_index_in_range (ops : List Op) :
    0 ≤ (run initialState ops).currentStep ∧
    (run initialState ops).currentStep ≤ 3 := by
  refine ⟨Nat.zero_le _, ?_⟩
  have general : ∀ (ops : List Op) (s : FormState), s.currentStep ≤ 3 →
      (run s ops).currentStep ≤ 3 := by
    intro ops
    induction ops with
    | nil => intro s hs; exact hs
    | cons op ops ih =>
      intro s hs
      exact ih (step s op) (step_currentStep_le s op hs)
  exact general ops initialState (by decide)

lemma step_no_undef (s : FormState) (op : Op)
    (h : ∀ g : Field, s.formData g ≠ some Value.undefined) :
    ∀ f : Field, (step s op).formData f ≠ some Value.undefined := by
  intro f
  cases op with
  | next inputs =>
    rw [step_next]
    by_cases hok : (validateFields inputs (triggerFields s.currentStep)).isEmpty = true
    · rw [next_formData_of_ok inputs s hok f]
      split
      · rename_i hcond
        intro hsome
        exact hcond.2 (Option.some.inj hsome)
      · exact h f
    · rw [next_formData_of_fail inputs s (by simpa using hok)]
      exact h f
  | prev =>
    rw [step_prev, prev_formData]
    exact h f
  | submit inputs =>
    rw [step_submit, handleSubmitProcess_formData]
    exact h f

lemma run_no_undef (s : FormState) (ops : List Op)
    (h : ∀ g : Field, s.formData g ≠ some Value.undefined) :
    ∀ f : Field, (run s ops).formData f ≠ some Value.undefined := by
  induction ops generalizing s with
  | nil => exact h
  | cons op ops ih => exact ih (step s op) (step_no_undef s op h)

/-- C10: saving a step skips every field whose current value is undefined,
so along every run from the initial state the accumulated formData never
maps a key to the undefined value, and the review page renders a missing
key as Not provided. -/
theorem C10_no_undefined_values :
    (∀ (s : FormState) (inputs : Field → Value) (f : Field),
        inputs f = Value.undefined →
        (saveStepData inputs s).formData f = s.formData f) ∧
    (∀ (ops : List Op) (f : Field),
        (run initialState ops).formData f ≠ some Value.undefined) ∧
    (∀ (fd : Field → Option Value) (f : Field),
        fd f = none → formatValue (jsGet fd f) = "Not provided") := by
  refine ⟨?_, ?_, ?_⟩
  · intro s inputs f h
    rw [saveStepData_formData]
    simp [h]
  · intro ops f
    exact run_no_undef initialState ops (fun g => by simp [initialState]) f
  · intro fd f h
    simp [jsGet, h, formatValue]

/-- C10 witness: an untouched optional boolean is skipped by the save and
a missing key renders as Not provided. -/
theorem C10_no_undefined_values_witness :
    (saveStepData goodInputs recordedState).formData Field.enableNotification =
      recordedState.formData Field.enableNotification ∧
    formatValue (jsGet initialState.formData Field.enableNotification) =
      "Not provided" :=
  ⟨C10_no_undefined_values.1 recordedState goodInputs Field.enableNotification
      (by decide),
   C10_no_undefined_values.2.2 initialState.formData Field.enableNotification
      (by decide)⟩

/-- C5: during a forward traversal (index below 3), a call of next
performs a full-schema validation exactly when it completes the
second-to-last step with its trigger passing, and in that case the
resulting state is exactly the index advance applied after the
full-schema validation and on-submit callback ran on the pre-advance
state. -/
theorem C5_full_validation_once (s : FormState) (inputs : Field → Value)
    (h3 : s.currentStep < 3) :
    nextFullChecks inputs s =
      (if s.currentStep = 2 ∧
          (validateFields inputs (stepFields 2)).isEmpty = true
       then 1 else 0) ∧
    (s.currentStep = 2 →
      (validateFields inputs (stepFields 2)).isEmpty = true →
      next inputs s =
        advanceIndex (handleSubmitProcess inputs
          (saveStepData inputs (applyTrigger inputs (stepFields 2) s)))) := by
  obtain ⟨p, c, b, fd, er⟩ := s
  simp only at h3
  constructor
  · unfold nextFullChecks
    simp only [triggerFields_of_lt c h3]
    by_cases h2 : c = 2
    · subst h2
      by_cases hok : (validateFields inputs (stepFields 2)).isEmpty = true <;>
        simp [hok, h3]
    · simp [h2, h3]
  · intro h2 hok
    subst h2
    have htf : triggerFields 2 = stepFields 2 := by decide
    rw [List.isEmpty_iff] at hok
    simp [next, htf, hok]

/-- A state sitting on step 2 with nothing recorded. -/
def stepTwoState : FormState :=
  { previousStep := 1, currentStep := 2, isSubmitted := false,
    formData := fun _ => none, errors := [] }

/-- C5 witness at step 2 with fully valid inputs. -/
theorem C5_full_validation_once_witness :
    nextFullChecks goodInputs stepTwoState =
      (if stepTwoState.currentStep = 2 ∧
          (validateFields goodInputs (stepFields 2)).isEmpty = true
       then 1 else 0) :=
  (C5_full_validation_once stepTwoState goodInputs (by decide)).1

/-! Lemmas for loadStepData. -/

lemma mem_allFieldsList (f : Field) : f ∈ allFieldsList := by
  cases f <;> simp [allFieldsList]

lemma mem_objectKeys (fd : Field → Option Value) (f : Field) :
    f ∈ objectKeys fd ↔ (fd f).isSome = true := by
  simp [objectKeys, List.mem_filter, mem_allFieldsList]

lemma foldl_setValue (keys : List Field) (g : Field → Value)
    (vals : Field → Value) (x : Field) :
    (keys.foldl (fun acc f => setValue acc f (g f)) vals) x =
      if x ∈ keys then g x else vals x := by
  induction keys generalizing vals with
  | nil => simp
  | cons f rest ih =>
    rw [List.foldl_cons, ih]
    by_cases hr : x ∈ rest
    · simp [hr]
    · by_cases hx : x = f
      · subst hx
        simp [hr, setValue]
      · simp [hr, hx, setValue]

/-- C7 counterexample: with a recorded country value and the active step
0, the load writes the country entry of the values store although step 0
does not own that field, so the pre-fill is not restricted to the fields
the entered step owns. -/
theorem C7_counterexample :
    Field.country ∉ stepFields 0 ∧
    loadStepData
        (fun f => if f = Field.country then some (Value.str "X") else none)
        (fun f => if f = Field.country then Value.str "Y" else Value.undefined)
        Field.country =
      Value.str "X" ∧
    (fun f => if f = Field.country then Value.str "Y" else Value.undefined)
        Field.country ≠ Value.str "X" := by
  refine ⟨by decide, ?_, by decide⟩
  decide

/-- C7 (amended): loadStepData pre-fills the values store from the
accumulated formData for every previously recorded field, regardless of
which step owns it, and leaves every unrecorded field untouched; in
particular every recorded field the entered step owns is pre-filled. -/
theorem C7_load_prefills_recorded (fd : Field → Option Value)
    (vals : Field → Value) (f : Field) :
    loadStepData fd vals f =
      (match fd f with
       | some v => v
       | none => vals f) := by
  have h := foldl_setValue (objectKeys fd) (jsGet fd) vals f
  show ((objectKeys fd).foldl (fun acc g => setValue acc g (jsGet fd g)) vals) f = _
  rw [h]
  rcases hfd : fd f with _ | v
  · simp [mem_objectKeys, hfd]
  · simp [mem_objectKeys, hfd, jsGet]

/-! Machinery for the submitted-flag claim: decompositions of runs, the
reachability invariant, and the count of flag flips. -/

lemma run_append (s : FormState) (l r : List Op) :
    run s (l ++ r) = run (run s l) r := by
  induction l generalizing s with
  | nil => rfl
  | cons op ops ih =>
    simp only [List.cons_append, run]
    exact ih (step s op)

lemma enabledRunB_append (s : FormState) (l r : List Op)
    (h : enabledRunB s (l ++ r) = true) :
    enabledRunB s l = true ∧ enabledRunB (run s l) r = true := by
  induction l generalizing s with
  | nil => exact ⟨rfl, h⟩
  | cons op ops ih =>
    simp only [List.cons_append, enabledRunB, Bool.and_eq_true] at h
    obtain ⟨h1, h2⟩ := h
    obtain ⟨h3, h4⟩ := ih (step s op) h2
    refine ⟨?_, h4⟩
    simp only [enabledRunB, Bool.and_eq_true]
    exact ⟨h1, h3⟩

lemma validRunB_append (s : FormState) (l r : List Op)
    (h : validRunB s (l ++ r) = true) :
    validRunB s l = true ∧ validRunB (run s l) r = true := by
  induction l generalizing s with
  | nil => exact ⟨rfl, h⟩
  | cons op ops ih =>
    simp only [List.cons_append, validRunB, Bool.and_eq_true] at h
    obtain ⟨h1, h2⟩ := h
    obtain ⟨h3, h4⟩ := ih (step s op) h2
    refine ⟨?_, h4⟩
    simp only [validRunB, Bool.and_eq_true]
    exact ⟨h1, h3⟩

lemma step_isSubmitted_mono (s : FormState) (op : Op)
    (h : s.isSubmitted = true) : (step s op).isSubmitted = true := by
  cases op with
  | next inputs =>
    rw [step_next, next_isSubmitted]
    split <;> simp [h]
  | prev =>
    rw [step_prev, prev_isSubmitted]
    exact h
  | submit inputs =>
    rw [step_submit, handleSubmitProcess_isSubmitted]
    simp [h]

lemma run_isSubmitted_mono (s : FormState) (ops : List Op)
    (h : s.isSubmitted = true) : (run s ops).isSubmitted = true := by
  induction ops generalizing s with
  | nil => exact h
  | cons op ops ih => exact ih (step s op) (step_isSubmitted_mono s op h)

lemma flips_of_true (s : FormState) (ops : List Op)
    (h : s.isSubmitted = true) : flips s ops = 0 := by
  induction ops generalizing s with
  | nil => rfl
  | cons op ops ih =>
    simp only [flips, h]
    rw [ih (step s op) (step_isSubmitted_mono s op h)]
    simp

lemma flips_formula (s : FormState) (ops : List Op) :
    flips s ops =
      (if s.isSubmitted = true then 0
       else if (run s ops).isSubmitted = true then 1 else 0) := by
  induction ops generalizing s with
  | nil =>
    by_cases h : s.isSubmitted = true <;> simp [flips, run, h]
  | cons op ops ih =>
    by_cases h : s.isSubmitted = true
    · rw [flips_of_true s (op :: ops) h]
      simp [h]
    · have hs : s.isSubmitted = false := by simpa using h
      by_cases h2 : (step s op).isSubmitted = true
      · have hrun : (run s (op :: ops)).isSubmitted = true :=
          run_isSubmitted_mono (step s op) ops h2
      -- the flip happens at this op and never again
        simp only [flips, hs, h2, flips_of_true (step s op) ops h2]
        simp [hs, hrun]
      · have h2f : (step s op).isSubmitted = false := by simpa using h2
        simp only [flips, hs, h2f]
        rw [ih (step s op)]
        simp [hs, h2f]
        rfl

/-- Invariant of runs over enabled, valid actions: the index stays below
4 and reaching the review step implies the flag is already set. -/
def stateInv (s : FormState) : Prop :=
  s.currentStep ≤ 3 ∧ (s.currentStep = 3 → s.isSubmitted = true)

lemma stateInv_step (s : FormState) (op : Op)
    (hinv : stateInv s) (hen : enabledB s op = true)
    (hop : validOp s op = true) : stateInv (step s op) := by
  obtain ⟨hle, himp⟩ := hinv
  cases op with
  | prev =>
    refine ⟨step_currentStep_le s Op.prev hle, ?_⟩
    intro h3
    exfalso
    rw [step_prev, prev_currentStep] at h3
    split at h3 <;> omega
  | submit inputs =>
    simp only [enabledB, Bool.and_eq_true, beq_iff_eq,
      Bool.not_eq_true'] at hen
    exact absurd (himp hen.1) (by simp [hen.2])
  | next inputs =>
    refine ⟨step_currentStep_le s (Op.next inputs) hle, ?_⟩
    intro h3
    simp only [enabledB, bne_iff_ne, ne_eq] at hen
    rw [step_next, next_currentStep] at h3
    rw [step_next, next_isSubmitted]
    split at h3
    · rename_i hcond
      have hc2 : s.currentStep = 2 := by omega
      simp only [validOp, hc2, Bool.or_eq_true, bne_iff_ne, ne_eq,
        not_true_eq_false, false_or] at hop
      rw [if_pos ⟨hcond.1, hc2⟩, hop]
      simp
    · exact absurd h3 hen

lemma stateInv_run (s : FormState) (ops : List Op)
    (hinv : stateInv s) (hen : enabledRunB s ops = true)
    (hval : validRunB s ops = true) : stateInv (run s ops) := by
  induction ops generalizing s with
  | nil => exact hinv
  | cons op ops ih =>
    simp only [enabledRunB, Bool.and_eq_true] at hen
    simp only [validRunB, Bool.and_eq_true] at hval
    exact ih (step s op) (stateInv_step s op hinv hen.1 hval.1) hen.2 hval.2

lemma flag_flip_op (s : FormState) (op : Op)
    (hinv : stateInv s) (hen : enabledB s op = true)
    (h0 : s.isSubmitted = false) (h1 : (step s op).isSubmitted = true) :
    ∃ inputs, op = Op.next inputs ∧ s.currentStep = 2 ∧
      (step s op).currentStep = 3 := by
  cases op with
  | prev =>
    rw [step_prev, prev_isSubmitted, h0] at h1
    exact absurd h1 (by simp)
  | submit inputs =>
    simp only [enabledB, Bool.and_eq_true, beq_iff_eq,
      Bool.not_eq_true'] at hen
    exact absurd (hinv.2 hen.1) (by simp [hen.2])
  | next inputs =>
    rw [step_next, next_isSubmitted] at h1
    have hc : (validateFields inputs (triggerFields s.currentStep)).isEmpty = true
        ∧ s.currentStep = 2 := by
      by_contra hne
      rw [if_neg hne, h0] at h1
      exact absurd h1 (by simp)
    refine ⟨inputs, rfl, hc.2, ?_⟩
    rw [step_next, next_currentStep, if_pos ⟨hc.1, by omega⟩, hc.2]

/-- C4: along every run of page-enabled actions that carries valid data
into the completing click and ends on the review step, the submitted flag
flips from false to true exactly once, and any action at which it flips is
a next fired on step 2 that moves the index to the review step. -/
theorem C4_submitted_exactly_once (ops : List Op)
    (hen : enabledRunB initialState ops = true)
    (hval : validRunB initialState ops = true)
    (hdone : (run initialState ops).currentStep = 3) :
    flips initialState ops = 1 ∧
    ∀ (l : List Op) (op : Op) (r : List Op), ops = l ++ op :: r →
      (run initialState l).isSubmitted = false →
      (step (run initialState l) op).isSubmitted = true →
      ∃ inputs, op = Op.next inputs ∧
        (run initialState l).currentStep = 2 ∧
        (step (run initialState l) op).currentStep = 3 := by
  have hinv0 : stateInv initialState := by
    unfold stateInv
    refine ⟨by simp [initialState], fun h => by simp [initialState] at h⟩
  have hfinal := stateInv_run initialState ops hinv0 hen hval
  have hsub : (run initialState ops).isSubmitted = true := hfinal.2 hdone
  refine ⟨?_, ?_⟩
  · rw [flips_formula, hsub]
    simp [initialState]
  · intro l op r heq h0 h1
    subst heq
    obtain ⟨henl, henr⟩ := enabledRunB_append _ _ _ hen
    obtain ⟨hvall, hvalr⟩ := validRunB_append _ _ _ hval
    simp only [enabledRunB, Bool.and_eq_true] at henr
    simp only [validRunB, Bool.and_eq_true] at hvalr
    have hinvl := stateInv_run initialState l hinv0 henl hvall
    exact flag_flip_op _ op hinvl henr.1 h0 h1

/-- C4 witness: the straight-line completion with valid data flips the
flag exactly once. -/
theorem C4_submitted_exactly_once_witness :
    flips initialState
      [Op.next goodInputs, Op.next goodInputs, Op.next goodInputs] = 1 :=
  (C4_submitted_exactly_once
      [Op.next goodInputs, Op.next goodInputs, Op.next goodInputs]
      (by decide) (by decide) (by decide)).1

end MultiStepForm
